import Mathlib

/-!
Verification development for the Dannybase employee-directory repository.

The Python sources are shallowly embedded:
- a Python scalar value (string / None / int) is a `Value`;
- a Python dict row is an insertion-ordered association list `Row`;
- `enrich_employee_row`, the canonical-column normalization pipeline of
  `main.py`, `generate_username` and the duplicate-username tracker of
  `batch_import_processor.py`, and the `/export` header pipeline are
  translated function by function from the source.
-/

/-- A Python scalar value as it appears in employee rows: a string,
`None`, or an integer. -/
inductive Value : Type where
  | vStr : String → Value
  | vNone : Value
  | vInt : Int → Value
deriving DecidableEq, Repr

/-- A Python dict with string keys, as an insertion-ordered association list. -/
abbrev Row := List (String × Value)

/-- First-occurrence lookup, `d.get(k)` on a dict with unique keys. -/
def getKey {α : Type} (k : String) : List (String × α) → Option α
  | [] => none
  | (x, w) :: rest => if x == k then some w else getKey k rest

/-- Key-membership test, Python `k in d`. -/
def hasKey {α : Type} (k : String) : List (String × α) → Bool
  | [] => false
  | (x, _) :: rest => x == k || hasKey k rest

/-- Dict assignment `d[k] = v`: update the first occurrence in place,
or append at the end (Python dicts keep insertion order). -/
def setKey {α : Type} (k : String) (v : α) : List (String × α) → List (String × α)
  | [] => [(k, v)]
  | (x, w) :: rest => if x == k then (k, v) :: rest else (x, w) :: setKey k v rest

/-- Python truthiness of a scalar: empty string, `None` and `0` are falsy. -/
def pyTruthy : Value → Bool
  | Value.vStr s => s != ""
  | Value.vNone => false
  | Value.vInt n => n != 0

/-- Python `str(n)` for an integer. -/
def intToStr (n : Int) : String :=
  if n < 0 then "-" ++ Nat.repr n.natAbs else Nat.repr n.natAbs

/-- Python `str(v)` / f-string rendering of a scalar. -/
def pyStr : Value → String
  | Value.vStr s => s
  | Value.vNone => "None"
  | Value.vInt n => intToStr n

/-- `d.get(k)`: `None` when the key is absent. -/
def pyGet (r : Row) (k : String) : Value :=
  (getKey k r).getD Value.vNone

/-- A calendar date as carried by `datetime.datetime`. -/
structure Date : Type where
  year : Nat
  month : Nat
  day : Nat
deriving DecidableEq, Repr

/-- Gregorian leap-year rule, as enforced by `datetime`. -/
def isLeap (y : Nat) : Bool :=
  y % 4 == 0 && (y % 100 != 0 || y % 400 == 0)

/-- Number of days in a month, as enforced by `datetime`. -/
def daysInMonth (y m : Nat) : Nat :=
  if m == 2 then (if isLeap y then 29 else 28)
  else if m == 4 || m == 6 || m == 9 || m == 11 then 30
  else 31

/-- Split a character list on the slash separator; like Python
`s.split('/')`, the empty string yields one empty field. -/
def splitSlash : List Char → List (List Char)
  | [] => [[]]
  | c :: rest =>
    match splitSlash rest with
    | [] => if c = '/' then [[], []] else [[c]]
    | g :: gs => if c = '/' then [] :: g :: gs else (c :: g) :: gs

/-- Decimal value of a non-empty all-digit character list, else `none`. -/
def toNatDigits? (cs : List Char) : Option Nat :=
  if cs ≠ [] ∧ cs.all (fun c => c.isDigit) then
    some (cs.foldl (fun a c => a * 10 + (c.toNat - 48)) 0)
  else none

/-- `datetime.datetime.strptime(s, "%m/%d/%Y")`: month and day are one or two
digits (no bare zero), the year exactly four digits, the whole string must be
consumed, and the date must exist on the calendar (Python's `%m` and `%d`
accept single digits, so `3/5/2020` parses). Returns `none` where Python
raises `ValueError`. -/
def parseMDY (s : String) : Option Date :=
  match splitSlash s.data with
  | [ms, ds, ys] =>
    match toNatDigits? ms, toNatDigits? ds, toNatDigits? ys with
    | some m, some d, some y =>
      if ms.length ≤ 2 ∧ ds.length ≤ 2 ∧ ys.length = 4 ∧
         1 ≤ m ∧ m ≤ 12 ∧ 1 ≤ d ∧ d ≤ daysInMonth y m ∧ 1 ≤ y then
        some ⟨y, m, d⟩
      else none
    | _, _, _ => none
  | _ => none

/-- `today.year - dt.year - ((today.month, today.day) < (dt.month, dt.day))`
from `enrich_employee_row`; the Python tuple comparison is lexicographic. -/
def yearsOf (today join : Date) : Int :=
  (today.year : Int) - (join.year : Int) -
    (if today.month < join.month ∨ (today.month = join.month ∧ today.day < join.day)
     then 1 else 0)

/-- `row.get('JoinDate') or row.get('Join Date')`: the legacy key is
consulted only when `JoinDate` is absent or falsy. -/
def effJoin (r : Row) : Value :=
  let a := pyGet r "JoinDate"
  if pyTruthy a then a else pyGet r "Join Date"

/-- `join_date in ['N/A', '', None]`, the guard list of `enrich_employee_row`. -/
def blockedJoin (v : Value) : Bool :=
  v == Value.vStr "N/A" || v == Value.vStr "" || v == Value.vNone

/-- The join-date branch of `enrich_employee_row`: the effective join value
must be truthy and outside the guard list, be a string (`strptime` raises
`TypeError` on anything else, swallowed by the bare `except`), and parse as
`%m/%d/%Y`. -/
def joinParse (r : Row) : Option Date :=
  let jv := effJoin r
  if pyTruthy jv && !(blockedJoin jv) then
    match jv with
    | Value.vStr s => parseMDY s
    | _ => none
  else none

/-- The `YearsOfService` value written by `enrich_employee_row`:
`str(years)` on success, `'N/A'` on any failure. -/
def ysValue (today : Date) (r : Row) : Value :=
  match joinParse r with
  | some j => Value.vStr (intToStr (yearsOf today j))
  | none => Value.vStr "N/A"

/-- `row['Username'] in [None, '', 'N/A']`, the guard list of the
`WorkEmail` branch. -/
def blockedUser (v : Value) : Bool :=
  v == Value.vNone || v == Value.vStr "" || v == Value.vStr "N/A"

/-- The `WorkEmail` value written by `enrich_employee_row`:
`f-string of row['Username']` plus the fixed domain when `Username` is
present and outside the guard list (NOT lower-cased by the code),
else `'N/A'`. -/
def weValue (row : Row) : Value :=
  if hasKey "Username" row && !(blockedUser (pyGet row "Username")) then
    Value.vStr (pyStr (pyGet row "Username") ++ "@mywinterhaven.com")
  else Value.vStr "N/A"

/-- `enrich_employee_row(row)` from `main.py`: sets `WorkEmail`, then reads
the join date from the updated row and sets `YearsOfService`. `today` is the
`datetime.datetime.today()` read inside the function, made explicit. -/
def enrich_employee_row (today : Date) (row : Row) : Row :=
  setKey "YearsOfService" (ysValue today (setKey "WorkEmail" (weValue row) row))
    (setKey "WorkEmail" (weValue row) row)

/-- ASCII lower-casing of one character, Python `str.lower` on the
repository's ASCII data. -/
def lowerChar (c : Char) : Char :=
  if 'A' ≤ c ∧ c ≤ 'Z' then Char.ofNat (c.toNat + 32) else c

/-- Python `s.lower()` (ASCII range). -/
def lowerStr (s : String) : String :=
  String.mk (s.data.map lowerChar)

/-- Python `s.replace(' ', '')`: drop every space character. -/
def removeSpaces (s : String) : String :=
  String.mk (s.data.filter (fun c => c != ' '))

/-- Python `s[0]` as a one-character string (only evaluated on non-empty
strings in the source, guarded by truthiness). -/
def firstCharStr (s : String) : String :=
  match s.data with
  | [] => ""
  | c :: _ => String.mk [c]

/-- Whether the value is a Python `str`, i.e. `isinstance(v, str)`. -/
def isVStr : Value → Bool
  | Value.vStr _ => true
  | _ => false

/-- String payload of a value (only used under an `isVStr` guard). -/
def strOf : Value → String
  | Value.vStr s => s
  | _ => ""

/-- `generate_username(first_name, last_name)` from
`batch_import_processor.py`: `None` when `first_name` is falsy or either
argument is not a string, else
`(first_name[0] + last_name.replace(' ', '')).lower()`. -/
def generate_username (first_name last_name : Value) : Option String :=
  if !(pyTruthy first_name) || !(isVStr first_name) || !(isVStr last_name) then
    none
  else
    some (lowerStr (firstCharStr (strOf first_name) ++ removeSpaces (strOf last_name)))

/-- The fixed `canonical_cols` list repeated in `save_employees`,
`api_create_employee`, `api_bulk_update_employees`, `import_employees_confirm`
and `export` in `main.py` (18 columns, including the derived
`WorkEmail` and `YearsOfService`). -/
def canonical_cols : List String :=
  ["EmployeeID", "Username", "WorkEmail", "FirstName", "LastName", "Nickname",
   "DepartmentCode", "Department", "Position", "JoinDate", "Birthday",
   "OfficeLocation", "Supervisor", "OfficePhoneAndExtension", "MobilePhone",
   "EmploymentType", "EmploymentStatus", "YearsOfService"]

/-- The key-canonicalization step of `api_create_employee`:
`emp = \x7bcol: emp.get(col, 'N/A') for col in canonical_cols\x7d` — every
canonical column in order, missing keys filled with `'N/A'`, other keys
dropped. -/
def canonicalize (raw : Row) : Row :=
  canonical_cols.map (fun c => (c, (getKey c raw).getD (Value.vStr "N/A")))

/-- Apply a function to every value of a row, keys unchanged. -/
def mapVals (f : Value → Value) (r : Row) : Row :=
  r.map (fun p => (p.1, f p.2))

/-- `df.fillna('')` in `save_employees`: `None`/NaN becomes the empty
string. -/
def fillnaEmpty (r : Row) : Row :=
  mapVals (fun v => match v with | Value.vNone => Value.vStr "" | w => w) r

/-- `df.where(pd.notnull(df), 'N/A')` followed by `df.replace('', 'N/A')`
in `save_employees`: nulls and empty strings become `'N/A'`. -/
def replaceEmptyNA (r : Row) : Row :=
  mapVals (fun v =>
    match v with
    | Value.vNone => Value.vStr "N/A"
    | Value.vStr s => if s = "" then Value.vStr "N/A" else Value.vStr s
    | w => w) r

/-- The normalization pipeline a created record passes through:
canonicalization in `api_create_employee`, then in `save_employees`
`fillna('')`, per-row enrichment, and the null/empty to `'N/A'`
replacement before writing `db.csv`. -/
def normalizeRecord (today : Date) (raw : Row) : Row :=
  replaceEmptyNA (enrich_employee_row today (fillnaEmpty (canonicalize raw)))

/-- Keys of a row, in order. -/
def keysOf {α : Type} (r : List (String × α)) : List String :=
  r.map Prod.fst

/-- Append an employee id to the tracked list of a username,
`username_tracker[username].append(emp_id)`. -/
def appendAt (k : String) (v : Int) : List (String × List Int) → List (String × List Int)
  | [] => []
  | (x, l) :: rest => if x == k then (x, l ++ [v]) :: rest else (x, l) :: appendAt k v rest

/-- One iteration of the duplicate-tracking loop in
`batch_import_processor.main`: append to an existing username group, or
start a new singleton group. -/
def addPair (tr : List (String × List Int)) (p : String × Int) : List (String × List Int) :=
  if hasKey p.1 tr then appendAt p.1 p.2 tr else tr ++ [(p.1, [p.2])]

/-- `username_tracker` after the loop over all (username, EmployeeID)
pairs. -/
def buildTracker (pairs : List (String × Int)) : List (String × List Int) :=
  pairs.foldl addPair []

/-- The duplicate-username report: the groups with `len(emp_ids) > 1`. -/
def dupReport (pairs : List (String × Int)) : List (String × List Int) :=
  (buildTracker pairs).filter (fun g => 1 < g.2.length)

/-- All EmployeeIDs tagged with a given username, in input order. -/
def idsFor (u : String) (pairs : List (String × Int)) : List Int :=
  (pairs.filter (fun p => p.1 == u)).map Prod.snd

/-- Membership in a list of strings. -/
def memB (x : String) : List String → Bool
  | [] => false
  | y :: ys => y == x || memB x ys

/-- The column-completion loop of `export` in `main.py`:
`for col in canonical_cols: if col not in df.columns: df[col] = 'N/A'`,
which appends each missing canonical column at the end. -/
def addMissingCanonical (cols : List String) : List String :=
  cols ++ canonical_cols.filter (fun c => !(memB c cols))

/-- `df[sel]` column selection: the resulting column list is `sel`,
defined only when every selected column exists. -/
def selectCols (sel cols : List String) : Option (List String) :=
  if sel.all (fun c => memB c cols) then some sel else none

/-- The header of the CSV produced by `export` in `main.py`, as a function
of the columns the loaded database happened to have. -/
def exportHeader (dbCols : List String) : Option (List String) :=
  selectCols canonical_cols (addMissingCanonical dbCols)

/-- Transcribed from the specification, section 3: the 16-element
"canonical field list" the spec claims is the export header. Kept for
comparison with the code's `canonical_cols`. -/
def specSectionThreeFields : List String :=
  ["EmployeeID", "Username", "FirstName", "LastName", "Nickname",
   "DepartmentCode", "Department", "Position", "JoinDate", "Birthday",
   "OfficeLocation", "Supervisor", "OfficePhoneAndExtension", "MobilePhone",
   "EmploymentType", "EmploymentStatus"]

/-- Merge a tracked group with ids arriving later: used only to state what
`buildTracker` computes for each username. -/
def combineIds : Option (List Int) → List Int → Option (List Int)
  | some l, m => some (l ++ m)
  | none, m => if m = [] then none else some m

example : parseMDY "03/15/2020" = some ⟨2020, 3, 15⟩ := by decide
example : parseMDY "3/5/2020" = some ⟨2020, 3, 5⟩ := by decide
example : parseMDY "not-a-date" = none := by decide
example : parseMDY "02/29/2021" = none := by decide
example : parseMDY "02/29/2020" = some ⟨2020, 2, 29⟩ := by decide
example : parseMDY "N/A" = none := by decide
example : parseMDY "" = none := by decide
example :
    getKey "WorkEmail" (enrich_employee_row ⟨2026, 10, 12⟩ [("Username", Value.vStr "JDoe")]) =
      some (Value.vStr "JDoe@mywinterhaven.com") := by decide
example :
    getKey "YearsOfService" (enrich_employee_row ⟨2026, 10, 12⟩ [("JoinDate", Value.vStr "03/15/2020")]) =
      some (Value.vStr "6") := by decide
example : generate_username (Value.vStr "Jane") (Value.vStr "Van Horn") = some "jvanhorn" := by decide
example : generate_username (Value.vStr "John") (Value.vStr "Smith-Jones") = some "jsmith-jones" := by decide
example : generate_username (Value.vStr "John") (Value.vStr "") = some "j" := by decide
example : generate_username Value.vNone (Value.vStr "Smith") = none := by decide
example : generate_username (Value.vStr "Jane") (Value.vInt 3) = none := by decide
example :
    dupReport [("jdoe", 1), ("jdoe", 2), ("asmith", 3)] = [("jdoe", [1, 2])] := by decide
example : exportHeader [] = some canonical_cols := by decide
example : exportHeader ["Foo", "Username"] = some canonical_cols := by decide
example :
    keysOf (normalizeRecord ⟨2026, 10, 12⟩ [("Username", Value.vStr "jdoe"), ("Junk", Value.vInt 7)]) =
      canonical_cols := by decide
example :
    getKey "WorkEmail" (normalizeRecord ⟨2026, 10, 12⟩ [("Username", Value.vStr "jdoe")]) =
      some (Value.vStr "jdoe@mywinterhaven.com") := by decide
example :
    getKey "Nickname" (normalizeRecord ⟨2026, 10, 12⟩ [("Nickname", Value.vStr "")]) =
      some (Value.vStr "N/A") := by decide
example : intToStr (-1) = "-1" := by decide

theorem getKey_setKey_self {α : Type} (k : String) (v : α) (l : List (String × α)) :
    getKey k (setKey k v l) = some v := by
  induction l with
  | nil => simp [setKey, getKey]
  | cons p rest ih =>
    obtain ⟨x, w⟩ := p
    by_cases h : x = k
    · simp [setKey, getKey, h]
    · simp [setKey, getKey, h, ih]

theorem getKey_setKey_ne {α : Type} {k k₂ : String} (h : k₂ ≠ k) (v : α)
    (l : List (String × α)) : getKey k (setKey k₂ v l) = getKey k l := by
  induction l with
  | nil => simp [setKey, getKey, h]
  | cons p rest ih =>
    obtain ⟨x, w⟩ := p
    by_cases hx : x = k₂
    · subst hx
      simp [setKey, getKey, h]
    · simp [setKey, getKey, hx, ih]

theorem hasKey_setKey_ne {α : Type} {k k₂ : String} (h : k₂ ≠ k) (v : α)
    (l : List (String × α)) : hasKey k (setKey k₂ v l) = hasKey k l := by
  induction l with
  | nil => simp [setKey, hasKey, h]
  | cons p rest ih =>
    obtain ⟨x, w⟩ := p
    by_cases hx : x = k₂
    · subst hx
      simp [setKey, hasKey, h, ih]
    · simp [setKey, hasKey, hx, ih]

theorem setKey_getKey_eq {α : Type} {k : String} {v : α} :
    ∀ {l : List (String × α)}, getKey k l = some v → setKey k v l = l := by
  intro l
  induction l with
  | nil => intro h; cases h
  | cons p rest ih =>
    obtain ⟨x, w⟩ := p
    by_cases hx : x = k
    · subst hx
      intro h
      simp [getKey] at h
      simp [setKey, h]
    · intro h
      simp [getKey, hx] at h
      simp [setKey, hx, ih h]

theorem keysOf_setKey_of_hasKey {α : Type} {k : String} (v : α) :
    ∀ {l : List (String × α)}, hasKey k l = true →
      keysOf (setKey k v l) = keysOf l := by
  intro l
  induction l with
  | nil => intro h; cases h
  | cons p rest ih =>
    obtain ⟨x, w⟩ := p
    by_cases hx : x = k
    · subst hx
      intro _
      simp [setKey, keysOf]
    · intro h
      simp [hasKey, hx] at h
      simp [setKey, keysOf, hx] at *
      exact ih h

theorem hasKey_iff_mem {α : Type} (k : String) :
    ∀ (l : List (String × α)), hasKey k l = true ↔ k ∈ keysOf l := by
  intro l
  induction l with
  | nil => simp [hasKey, keysOf]
  | cons p rest ih =>
    obtain ⟨x, w⟩ := p
    show (x == k || hasKey k rest) = true ↔ k ∈ x :: keysOf rest
    rw [Bool.or_eq_true, beq_iff_eq, List.mem_cons, ih]
    constructor
    · rintro (h | h)
      · exact Or.inl h.symm
      · exact Or.inr h
    · rintro (h | h)
      · exact Or.inl h.symm
      · exact Or.inr h

theorem getKey_mapVals (f : Value → Value) (k : String) :
    ∀ (r : Row), getKey k (mapVals f r) = (getKey k r).map f := by
  intro r
  induction r with
  | nil => simp [mapVals, getKey]
  | cons p rest ih =>
    obtain ⟨x, w⟩ := p
    show getKey k ((x, f w) :: mapVals f rest) = Option.map f (getKey k ((x, w) :: rest))
    by_cases hx : x = k
    · simp [getKey, hx]
    · simp [getKey, hx, ih]

theorem keysOf_mapVals (f : Value → Value) (r : Row) :
    keysOf (mapVals f r) = keysOf r := by
  induction r with
  | nil => rfl
  | cons p rest ih =>
    show p.1 :: keysOf (mapVals f rest) = p.1 :: keysOf rest
    rw [ih]

theorem getKey_tab (g : String → Value) (c : String) :
    ∀ (cols : List String), c ∈ cols →
      getKey c (cols.map (fun x => (x, g x))) = some (g c) := by
  intro cols
  induction cols with
  | nil => intro h; cases h
  | cons x rest ih =>
    intro h
    by_cases hx : x = c
    · subst hx
      simp [getKey]
    · have : c ∈ rest := by
        cases h with
        | head => exact absurd rfl hx
        | tail _ hm => exact hm
      simp [getKey, hx, ih this]

theorem keysOf_tab (g : String → Value) (cols : List String) :
    keysOf (cols.map (fun x => (x, g x))) = cols := by
  induction cols with
  | nil => simp [keysOf]
  | cons x rest ih => simp [keysOf] at *; exact ih

theorem hasKey_of_getKey {α : Type} {k : String} {v : α} :
    ∀ {l : List (String × α)}, getKey k l = some v → hasKey k l = true := by
  intro l
  induction l with
  | nil => intro h; cases h
  | cons p rest ih =>
    obtain ⟨x, w⟩ := p
    by_cases hx : x = k
    · intro _
      simp [hasKey, hx]
    · intro h
      simp [getKey, hx] at h
      simp [hasKey, hx, ih h]

theorem not_hasKey_of_getKey_none {α : Type} {k : String} :
    ∀ {l : List (String × α)}, getKey k l = none → hasKey k l = false := by
  intro l
  induction l with
  | nil => intro _; rfl
  | cons p rest ih =>
    obtain ⟨x, w⟩ := p
    by_cases hx : x = k
    · intro h
      simp [getKey, hx] at h
    · intro h
      simp [getKey, hx] at h
      simp [hasKey, hx, ih h]

theorem weValue_setKey {k : String} (h : k ≠ "Username") (v : Value) (r : Row) :
    weValue (setKey k v r) = weValue r := by
  simp only [weValue, pyGet, hasKey_setKey_ne h, getKey_setKey_ne h]

theorem effJoin_setKey {k : String} (h1 : k ≠ "JoinDate") (h2 : k ≠ "Join Date")
    (v : Value) (r : Row) : effJoin (setKey k v r) = effJoin r := by
  simp only [effJoin, pyGet, getKey_setKey_ne h1, getKey_setKey_ne h2]

theorem joinParse_setKey {k : String} (h1 : k ≠ "JoinDate") (h2 : k ≠ "Join Date")
    (v : Value) (r : Row) : joinParse (setKey k v r) = joinParse r := by
  simp only [joinParse, effJoin_setKey h1 h2]

theorem ysValue_setKey {k : String} (h1 : k ≠ "JoinDate") (h2 : k ≠ "Join Date")
    (t : Date) (v : Value) (r : Row) : ysValue t (setKey k v r) = ysValue t r := by
  simp only [ysValue, joinParse_setKey h1 h2]

theorem getKey_ys_enrich (t : Date) (r : Row) :
    getKey "YearsOfService" (enrich_employee_row t r) = some (ysValue t r) := by
  unfold enrich_employee_row
  rw [getKey_setKey_self, ysValue_setKey (by decide) (by decide)]

theorem getKey_we_enrich (t : Date) (r : Row) :
    getKey "WorkEmail" (enrich_employee_row t r) = some (weValue r) := by
  unfold enrich_employee_row
  rw [getKey_setKey_ne (by decide), getKey_setKey_self]

theorem getKey_enrich_other {k : String} (h1 : k ≠ "WorkEmail")
    (h2 : k ≠ "YearsOfService") (t : Date) (r : Row) :
    getKey k (enrich_employee_row t r) = getKey k r := by
  unfold enrich_employee_row
  rw [getKey_setKey_ne (Ne.symm h2), getKey_setKey_ne (Ne.symm h1)]

theorem parseMDY_empty : parseMDY "" = none := by decide

theorem parseMDY_na : parseMDY "N/A" = none := by decide

theorem joinParse_of_joindate {r : Row} {s : String} {j : Date}
    (hg : getKey "JoinDate" r = some (Value.vStr s)) (hp : parseMDY s = some j) :
    joinParse r = some j := by
  have hne : s ≠ "" := by
    intro he
    subst he
    rw [parseMDY_empty] at hp
    cases hp
  have hna : s ≠ "N/A" := by
    intro he
    subst he
    rw [parseMDY_na] at hp
    cases hp
  have heff : effJoin r = Value.vStr s := by
    simp [effJoin, pyGet, hg, pyTruthy, bne_iff_ne, hne]
  simp [joinParse, heff, pyTruthy, blockedJoin, bne_iff_ne, hne, hna, hp]

theorem ys_enrich_parsed {t : Date} {r : Row} {s : String} {j : Date}
    (hg : getKey "JoinDate" r = some (Value.vStr s)) (hp : parseMDY s = some j) :
    getKey "YearsOfService" (enrich_employee_row t r) =
      some (Value.vStr (intToStr (yearsOf t j))) := by
  rw [getKey_ys_enrich]
  simp [ysValue, joinParse_of_joindate hg hp]

theorem ys_enrich_unparsed {t : Date} {r : Row} (h : joinParse r = none) :
    getKey "YearsOfService" (enrich_employee_row t r) = some (Value.vStr "N/A") := by
  rw [getKey_ys_enrich]
  simp [ysValue, h]

/-- Claim C2 (amended): if a record's `JoinDate` is a string that parses
under `%m/%d/%Y`, `YearsOfService` is `str(today.year - join.year - 1)` when
`(today.month, today.day) < (join.month, join.day)` and
`str(today.year - join.year)` otherwise, i.e. `str(yearsOf today join)`; and
whenever the effective join value — `JoinDate`, falling back to the legacy
key `'Join Date'` when `JoinDate` is absent or falsy — yields no parse,
`YearsOfService` is `'N/A'`. The original claim's second half, stated for
`JoinDate` alone, is refuted by `claim_C2_counterexample` because of the
fallback. -/
theorem claim_C2_years_of_service (t : Date) (r : Row) :
    (∀ (s : String) (j : Date), getKey "JoinDate" r = some (Value.vStr s) →
        parseMDY s = some j →
        getKey "YearsOfService" (enrich_employee_row t r) =
          some (Value.vStr (intToStr (yearsOf t j))))
    ∧ (joinParse r = none →
        getKey "YearsOfService" (enrich_employee_row t r) = some (Value.vStr "N/A")) :=
  ⟨fun _ _ hg hp => ys_enrich_parsed hg hp, fun h => ys_enrich_unparsed h⟩

theorem claim_C2_witness :
    getKey "YearsOfService"
        (enrich_employee_row ⟨2026, 10, 12⟩ [("JoinDate", Value.vStr "03/15/2020")]) =
      some (Value.vStr (intToStr (yearsOf ⟨2026, 10, 12⟩ ⟨2020, 3, 15⟩))) :=
  (claim_C2_years_of_service ⟨2026, 10, 12⟩ [("JoinDate", Value.vStr "03/15/2020")]).1
    "03/15/2020" ⟨2020, 3, 15⟩ (by decide) (by decide)

/-- Refutes claim C2 as stated: in this record `JoinDate` (the empty string)
does not parse under `%m/%d/%Y`, yet `YearsOfService` is `"6"` rather than
`"N/A"`, because the code falls back to the legacy `'Join Date'` key. -/
theorem claim_C2_counterexample :
    parseMDY "" = none ∧
    getKey "YearsOfService"
        (enrich_employee_row ⟨2026, 10, 12⟩
          [("JoinDate", Value.vStr ""), ("Join Date", Value.vStr "03/15/2020")]) =
      some (Value.vStr "6") ∧
    Value.vStr "6" ≠ Value.vStr "N/A" :=
  ⟨by decide, by decide, by decide⟩

/-- Claim C3 (amended): when `Username` is present and none of `None`, the
empty string or `'N/A'`, `WorkEmail` is the string form of `Username` taken
verbatim — NOT lower-cased — followed by `"@mywinterhaven.com"`; in every
other case `WorkEmail` is `'N/A'`. The original claim's lower-casing is
refuted by `claim_C3_counterexample`. -/
theorem claim_C3_work_email (t : Date) (r : Row) :
    (∀ v : Value, getKey "Username" r = some v → v ≠ Value.vNone →
        v ≠ Value.vStr "" → v ≠ Value.vStr "N/A" →
        getKey "WorkEmail" (enrich_employee_row t r) =
          some (Value.vStr (pyStr v ++ "@mywinterhaven.com")))
    ∧ ((getKey "Username" r = none ∨ getKey "Username" r = some Value.vNone ∨
        getKey "Username" r = some (Value.vStr "") ∨
        getKey "Username" r = some (Value.vStr "N/A")) →
        getKey "WorkEmail" (enrich_employee_row t r) = some (Value.vStr "N/A")) := by
  constructor
  · intro v hg h1 h2 h3
    rw [getKey_we_enrich]
    have hk : hasKey "Username" r = true := hasKey_of_getKey hg
    simp [weValue, pyGet, hg, hk, blockedUser, h1, h2, h3]
  · intro hcase
    rw [getKey_we_enrich]
    rcases hcase with h | h | h | h
    · simp [weValue, not_hasKey_of_getKey_none h]
    · simp [weValue, pyGet, h, hasKey_of_getKey h, blockedUser]
    · simp [weValue, pyGet, h, hasKey_of_getKey h, blockedUser]
    · simp [weValue, pyGet, h, hasKey_of_getKey h, blockedUser]

theorem claim_C3_witness :
    getKey "WorkEmail" (enrich_employee_row ⟨2026, 1, 1⟩ [("Username", Value.vStr "jdoe")]) =
      some (Value.vStr (pyStr (Value.vStr "jdoe") ++ "@mywinterhaven.com")) :=
  (claim_C3_work_email ⟨2026, 1, 1⟩ [("Username", Value.vStr "jdoe")]).1
    (Value.vStr "jdoe") (by decide) (by decide) (by decide) (by decide)

/-- Refutes claim C3 as stated: for the Username `"JDoe"` the code emits
`"JDoe@mywinterhaven.com"`, not the lower-cased address the claim
prescribes. -/
theorem claim_C3_counterexample :
    getKey "WorkEmail" (enrich_employee_row ⟨2026, 10, 12⟩ [("Username", Value.vStr "JDoe")]) =
      some (Value.vStr "JDoe@mywinterhaven.com") ∧
    Value.vStr "JDoe@mywinterhaven.com" ≠
      Value.vStr (lowerStr "JDoe" ++ "@mywinterhaven.com") :=
  ⟨by decide, by decide⟩

/-- Claim C4: enrichment is idempotent at a fixed current date —
`enrich_employee_row` only reads `Username`, `JoinDate` and `'Join Date'`
and only writes `WorkEmail` and `YearsOfService`, so a second application
rewrites both derived keys with the same values. -/
theorem claim_C4_enrich_idempotent (t : Date) (r : Row) :
    enrich_employee_row t (enrich_employee_row t r) = enrich_employee_row t r := by
  have hw : weValue (enrich_employee_row t r) = weValue r := by
    unfold enrich_employee_row
    rw [weValue_setKey (by decide), weValue_setKey (by decide)]
  have hset : setKey "WorkEmail" (weValue (enrich_employee_row t r)) (enrich_employee_row t r)
      = enrich_employee_row t r := by
    rw [hw]
    exact setKey_getKey_eq (getKey_we_enrich t r)
  have hys : ysValue t (enrich_employee_row t r) = ysValue t r := by
    unfold enrich_employee_row
    rw [ysValue_setKey (by decide) (by decide), ysValue_setKey (by decide) (by decide)]
  show setKey "YearsOfService"
      (ysValue t (setKey "WorkEmail" (weValue (enrich_employee_row t r)) (enrich_employee_row t r)))
      (setKey "WorkEmail" (weValue (enrich_employee_row t r)) (enrich_employee_row t r))
      = enrich_employee_row t r
  rw [hset, hys]
  exact setKey_getKey_eq (getKey_ys_enrich t r)

/-- Claim C8: enrichment is total — on every row (string, `None` or integer
values, any key set) it returns a row carrying both derived keys, and any
malformed join value (absent, falsy, non-string, or failing the `%m/%d/%Y`
parse) degrades `YearsOfService` to the `'N/A'` placeholder. -/
theorem claim_C8_enrich_total (t : Date) (r : Row) :
    hasKey "WorkEmail" (enrich_employee_row t r) = true ∧
    hasKey "YearsOfService" (enrich_employee_row t r) = true ∧
    (joinParse r = none →
      getKey "YearsOfService" (enrich_employee_row t r) = some (Value.vStr "N/A")) :=
  ⟨hasKey_of_getKey (getKey_we_enrich t r),
   hasKey_of_getKey (getKey_ys_enrich t r),
   fun h => ys_enrich_unparsed h⟩

theorem claim_C8_witness :
    getKey "YearsOfService"
        (enrich_employee_row ⟨2026, 10, 12⟩ [("JoinDate", Value.vStr "not-a-date")]) =
      some (Value.vStr "N/A") :=
  (claim_C8_enrich_total ⟨2026, 10, 12⟩ [("JoinDate", Value.vStr "not-a-date")]).2.2
    (by decide)

/-- Claim C9: a `JoinDate` that parses and lies strictly in the future
yields a negative number rendered as a string for `YearsOfService`; the
code applies no lower bound or future-date check. -/
theorem claim_C9_future_join_negative (t : Date) (r : Row) (s : String) (j : Date)
    (hg : getKey "JoinDate" r = some (Value.vStr s)) (hp : parseMDY s = some j)
    (hf : t.year < j.year ∨ (t.year = j.year ∧
            (t.month < j.month ∨ (t.month = j.month ∧ t.day < j.day)))) :
    ∃ n : Int, n < 0 ∧
      getKey "YearsOfService" (enrich_employee_row t r) =
        some (Value.vStr (intToStr n)) := by
  refine ⟨yearsOf t j, ?_, ys_enrich_parsed hg hp⟩
  unfold yearsOf
  rcases hf with h | ⟨hy, hmd⟩
  · have h1 : (t.year : Int) < (j.year : Int) := by exact_mod_cast h
    split <;> omega
  · rw [hy, if_pos hmd]
    omega

theorem claim_C9_witness :
    ∃ n : Int, n < 0 ∧
      getKey "YearsOfService"
          (enrich_employee_row ⟨2026, 10, 12⟩ [("JoinDate", Value.vStr "03/15/2027")]) =
        some (Value.vStr (intToStr n)) :=
  claim_C9_future_join_negative ⟨2026, 10, 12⟩ [("JoinDate", Value.vStr "03/15/2027")]
    "03/15/2027" ⟨2027, 3, 15⟩ (by decide) (by decide) (by decide)

theorem append_mk_nil (a : String) : a ++ String.mk [] = a := by
  cases a with
  | mk d =>
    show String.mk (d ++ []) = String.mk d
    rw [List.append_nil]

theorem keysOf_fill_canonicalize (raw : Row) :
    keysOf (fillnaEmpty (canonicalize raw)) = canonical_cols := by
  unfold fillnaEmpty
  rw [keysOf_mapVals]
  unfold canonicalize
  exact keysOf_tab _ _

/-- Claim C1 (amended): for every input mapping, the normalization pipeline
(canonicalization in `api_create_employee` plus the fill/enrich/replace
steps of `save_employees`) returns a row whose key list equals the code's
fixed `canonical_cols` exactly — non-canonical keys dropped, the operation
total — and every non-derived canonical field that is missing, `None` or the
empty string in the input comes out as the literal `'N/A'`. The original
claim said this placeholder rule applies to every canonical field; that
fails for the derived `WorkEmail`/`YearsOfService`, which the pipeline
recomputes from `Username`/`JoinDate` (`claim_C1_counterexample`). -/
theorem claim_C1_normalize_shape (t : Date) (raw : Row) :
    keysOf (normalizeRecord t raw) = canonical_cols ∧
    (∀ c : String, c ∈ canonical_cols → c ≠ "WorkEmail" → c ≠ "YearsOfService" →
      (getKey c raw = none ∨ getKey c raw = some Value.vNone ∨
        getKey c raw = some (Value.vStr "")) →
      getKey c (normalizeRecord t raw) = some (Value.vStr "N/A")) := by
  constructor
  · have hx := keysOf_fill_canonicalize raw
    have hW : hasKey "WorkEmail" (fillnaEmpty (canonicalize raw)) = true := by
      rw [hasKey_iff_mem, hx]
      decide
    have hY2 : hasKey "YearsOfService"
        (setKey "WorkEmail" (weValue (fillnaEmpty (canonicalize raw)))
          (fillnaEmpty (canonicalize raw))) = true := by
      rw [hasKey_setKey_ne (by decide), hasKey_iff_mem, hx]
      decide
    unfold normalizeRecord replaceEmptyNA
    rw [keysOf_mapVals]
    unfold enrich_employee_row
    rw [keysOf_setKey_of_hasKey _ hY2, keysOf_setKey_of_hasKey _ hW, hx]
  · intro c hc hw hy hcase
    have hkey : getKey c (canonicalize raw) =
        some ((getKey c raw).getD (Value.vStr "N/A")) := by
      unfold canonicalize
      exact getKey_tab _ c canonical_cols hc
    unfold normalizeRecord replaceEmptyNA fillnaEmpty
    rw [getKey_mapVals, getKey_enrich_other hw hy, getKey_mapVals, hkey]
    rcases hcase with h | h | h <;> rw [h] <;> rfl

theorem claim_C1_witness :
    getKey "Nickname"
        (normalizeRecord ⟨2026, 10, 12⟩ [("Nickname", Value.vStr ""), ("Junk", Value.vInt 7)]) =
      some (Value.vStr "N/A") :=
  (claim_C1_normalize_shape ⟨2026, 10, 12⟩ [("Nickname", Value.vStr ""), ("Junk", Value.vInt 7)]).2
    "Nickname" (by decide) (by decide) (by decide) (Or.inr (Or.inr (by decide)))

/-- Refutes claim C1 as stated: `WorkEmail` is a canonical column of the
code's fixed list and is missing from this raw record, yet normalization
sets it to the derived address, not to the `'N/A'` placeholder. -/
theorem claim_C1_counterexample :
    "WorkEmail" ∈ canonical_cols ∧
    getKey "WorkEmail" (normalizeRecord ⟨2026, 10, 12⟩ [("Username", Value.vStr "jdoe")]) =
      some (Value.vStr "jdoe@mywinterhaven.com") ∧
    Value.vStr "jdoe@mywinterhaven.com" ≠ Value.vStr "N/A" :=
  ⟨by decide, by decide, by decide⟩

/-- Claim C5: `generate_username` returns `None` exactly when the first
name is falsy or either argument is not a string; otherwise it lower-cases
the first initial plus the space-stripped last name, keeping hyphens. -/
theorem claim_C5_generate_username :
    (∀ fn ln : Value, generate_username fn ln = none ↔
        (pyTruthy fn = false ∨ isVStr fn = false ∨ isVStr ln = false))
    ∧ (∀ s t : String, s ≠ "" →
        generate_username (Value.vStr s) (Value.vStr t) =
          some (lowerStr (firstCharStr s ++ removeSpaces t)))
    ∧ generate_username (Value.vStr "Jane") (Value.vStr "Van Horn") = some "jvanhorn"
    ∧ generate_username (Value.vStr "John") (Value.vStr "Smith-Jones") =
        some "jsmith-jones" := by
  refine ⟨?_, ?_, by decide, by decide⟩
  · intro fn ln
    cases fn with
    | vStr s =>
      cases ln with
      | vStr t => by_cases hs : s = "" <;> simp [generate_username, pyTruthy, isVStr, hs]
      | vNone => simp [generate_username, pyTruthy, isVStr]
      | vInt n => simp [generate_username, pyTruthy, isVStr]
    | vNone => cases ln <;> simp [generate_username, pyTruthy, isVStr]
    | vInt n => cases ln <;> simp [generate_username, pyTruthy, isVStr]
  · intro s t hs
    simp [generate_username, pyTruthy, isVStr, strOf, hs]

theorem claim_C5_witness :
    generate_username (Value.vStr "Ada") (Value.vStr "Lovelace King") =
      some (lowerStr (firstCharStr "Ada" ++ removeSpaces "Lovelace King")) :=
  claim_C5_generate_username.2.1 "Ada" "Lovelace King" (by decide)

/-- Claim C10: `generate_username` never checks `last_name` for emptiness —
a non-empty first name with an empty or all-space last name yields just the
lower-cased first initial, not `None`. -/
theorem claim_C10_empty_last_name :
    (∀ s t : String, s ≠ "" → (∀ c ∈ t.data, c = ' ') →
        generate_username (Value.vStr s) (Value.vStr t) =
          some (lowerStr (firstCharStr s)))
    ∧ generate_username (Value.vStr "John") (Value.vStr "") = some "j" := by
  refine ⟨?_, by decide⟩
  intro s t hs hsp
  have hrm : removeSpaces t = String.mk [] := by
    unfold removeSpaces
    congr 1
    rw [List.filter_eq_nil_iff]
    intro c hc
    rw [hsp c hc]
    decide
  have happ : firstCharStr s ++ removeSpaces t = firstCharStr s := by
    rw [hrm, append_mk_nil]
  simp [generate_username, pyTruthy, isVStr, strOf, hs, happ]

theorem claim_C10_witness :
    generate_username (Value.vStr "John") (Value.vStr " ") =
      some (lowerStr (firstCharStr "John")) :=
  claim_C10_empty_last_name.1 "John" " " (by decide) (by decide)

theorem keysOf_cons {α : Type} (p : String × α) (l : List (String × α)) :
    keysOf (p :: l) = p.1 :: keysOf l := rfl

theorem mem_keysOf_of_mem {α : Type} {p : String × α} {l : List (String × α)}
    (h : p ∈ l) : p.1 ∈ keysOf l :=
  List.mem_map_of_mem Prod.fst h

theorem memB_iff (x : String) : ∀ (l : List String), memB x l = true ↔ x ∈ l := by
  intro l
  induction l with
  | nil => simp [memB]
  | cons y ys ih =>
    by_cases hy : y = x
    · simp [memB, hy]
    · simp [memB, hy, ih]
      intro he
      exact absurd he.symm hy

theorem exportHeader_eq (dbCols : List String) :
    exportHeader dbCols = some canonical_cols := by
  have hall : canonical_cols.all (fun c => memB c (addMissingCanonical dbCols)) = true := by
    rw [List.all_eq_true]
    intro c hc
    rw [memB_iff]
    unfold addMissingCanonical
    rw [List.mem_append]
    by_cases h : memB c dbCols = true
    · exact Or.inl ((memB_iff c dbCols).1 h)
    · right
      rw [List.mem_filter]
      refine ⟨hc, ?_⟩
      rw [Bool.not_eq_true] at h
      simp [h]
  simp only [exportHeader, selectCols, hall, if_true]

theorem hasKey_eq_isSome {α : Type} (u : String) :
    ∀ (l : List (String × α)), hasKey u l = (getKey u l).isSome := by
  intro l
  induction l with
  | nil => rfl
  | cons p rest ih =>
    obtain ⟨x, w⟩ := p
    by_cases hx : x = u
    · simp [hasKey, getKey, hx]
    · simp [hasKey, getKey, hx, ih]

theorem getKey_append_of_some {α : Type} {u : String} {v : α} :
    ∀ (l1 l2 : List (String × α)), getKey u l1 = some v →
      getKey u (l1 ++ l2) = some v := by
  intro l1 l2 h
  induction l1 with
  | nil => cases h
  | cons p rest ih =>
    obtain ⟨x, w⟩ := p
    by_cases hx : x = u
    · simp [getKey, hx] at h
      simp [getKey, hx, h]
    · simp [getKey, hx] at h
      simp [getKey, hx, ih h]

theorem getKey_append_of_none {α : Type} {u : String} :
    ∀ (l1 l2 : List (String × α)), getKey u l1 = none →
      getKey u (l1 ++ l2) = getKey u l2 := by
  intro l1 l2 h
  induction l1 with
  | nil => rfl
  | cons p rest ih =>
    obtain ⟨x, w⟩ := p
    by_cases hx : x = u
    · simp [getKey, hx] at h
    · simp [getKey, hx] at h
      simp [getKey, hx, ih h]

theorem getKey_appendAt_self (k : String) (v : Int) :
    ∀ (tr : List (String × List Int)),
      getKey k (appendAt k v tr) = (getKey k tr).map (fun l => l ++ [v]) := by
  intro tr
  induction tr with
  | nil => rfl
  | cons p rest ih =>
    obtain ⟨x, l⟩ := p
    by_cases hx : x = k
    · simp [appendAt, getKey, hx]
    · simp [appendAt, getKey, hx, ih]

theorem getKey_appendAt_ne {k u : String} (h : u ≠ k) (v : Int) :
    ∀ (tr : List (String × List Int)),
      getKey u (appendAt k v tr) = getKey u tr := by
  intro tr
  induction tr with
  | nil => rfl
  | cons p rest ih =>
    obtain ⟨x, l⟩ := p
    by_cases hx : x = k
    · subst hx
      simp [appendAt, getKey, Ne.symm h]
    · by_cases hxu : x = u
      · simp [appendAt, getKey, hx, hxu, h]
      · simp [appendAt, getKey, hx, hxu, ih]

theorem keysOf_appendAt (k : String) (v : Int) :
    ∀ (tr : List (String × List Int)), keysOf (appendAt k v tr) = keysOf tr := by
  intro tr
  induction tr with
  | nil => rfl
  | cons p rest ih =>
    obtain ⟨x, l⟩ := p
    by_cases hx : x = k
    · simp [appendAt, hx, keysOf_cons]
    · simp [appendAt, hx, keysOf_cons, ih]

theorem idsFor_cons (u : String) (p : String × Int) (ps : List (String × Int)) :
    idsFor u (p :: ps) = if p.1 = u then p.2 :: idsFor u ps else idsFor u ps := by
  unfold idsFor
  by_cases h : p.1 = u <;> simp [List.filter_cons, h]

theorem build_lookup (u : String) :
    ∀ (ps : List (String × Int)) (tr : List (String × List Int)),
      getKey u (ps.foldl addPair tr) = combineIds (getKey u tr) (idsFor u ps) := by
  intro ps
  induction ps with
  | nil =>
    intro tr
    show getKey u tr = combineIds (getKey u tr) (idsFor u [])
    cases h : getKey u tr <;> simp [combineIds, idsFor]
  | cons p ps ih =>
    intro tr
    show getKey u (ps.foldl addPair (addPair tr p)) =
      combineIds (getKey u tr) (idsFor u (p :: ps))
    rw [ih (addPair tr p), idsFor_cons]
    by_cases hp : p.1 = u
    · rw [if_pos hp]
      by_cases hk : hasKey p.1 tr = true
      · have hsome : ∃ l, getKey u tr = some l := by
          rw [hp, hasKey_eq_isSome] at hk
          exact Option.isSome_iff_exists.mp hk
        obtain ⟨l, hl⟩ := hsome
        rw [show addPair tr p = appendAt p.1 p.2 tr from by simp [addPair, hk]]
        rw [hp, getKey_appendAt_self, hl]
        simp [combineIds]
      · have hnone : getKey u tr = none := by
          rw [hp, hasKey_eq_isSome] at hk
          cases h : getKey u tr
          · rfl
          · rw [h] at hk
            simp at hk
        rw [show addPair tr p = tr ++ [(p.1, [p.2])] from by simp [addPair, hk]]
        rw [getKey_append_of_none _ _ hnone, hp]
        simp [getKey, combineIds, hnone]
    · rw [if_neg hp]
      have hkeep : getKey u (addPair tr p) = getKey u tr := by
        unfold addPair
        by_cases hk : hasKey p.1 tr = true
        · simp [hk, getKey_appendAt_ne (Ne.symm hp)]
        · simp [hk]
          cases hg : getKey u tr with
          | none =>
            rw [getKey_append_of_none _ _ hg]
            simp [getKey, hp]
          | some l => exact getKey_append_of_some _ _ hg
      rw [hkeep]

theorem build_nodup :
    ∀ (ps : List (String × Int)) (tr : List (String × List Int)),
      (keysOf tr).Nodup → (keysOf (ps.foldl addPair tr)).Nodup := by
  intro ps
  induction ps with
  | nil => intro tr h; exact h
  | cons p ps ih =>
    intro tr h
    apply ih
    unfold addPair
    by_cases hk : hasKey p.1 tr = true
    · simp only [hk, if_true]
      rw [keysOf_appendAt]
      exact h
    · simp only [hk, if_false, Bool.false_eq_true]
      have hkeys : keysOf (tr ++ [(p.1, [p.2])]) = keysOf tr ++ [p.1] := by
        simp [keysOf]
      rw [hkeys, List.nodup_append]
      refine ⟨h, List.nodup_singleton _, ?_⟩
      intro a ha hb
      rw [List.mem_singleton] at hb
      subst hb
      rw [← hasKey_iff_mem] at ha
      rw [ha] at hk
      exact hk rfl

theorem mem_tracker_iff {u : String} {ids : List Int} :
    ∀ {tr : List (String × List Int)}, (keysOf tr).Nodup →
      ((u, ids) ∈ tr ↔ getKey u tr = some ids) := by
  intro tr
  induction tr with
  | nil =>
    intro _
    simp [getKey]
  | cons p rest ih =>
    intro hnd
    obtain ⟨x, l⟩ := p
    rw [keysOf_cons, List.nodup_cons] at hnd
    obtain ⟨hx_not, hnd'⟩ := hnd
    by_cases hx : x = u
    · subst hx
      simp only [getKey, beq_self_eq_true, if_true, List.mem_cons]
      constructor
      · rintro (h | h)
        · rw [(Prod.mk.injEq _ _ _ _).mp h.symm |>.2]
        · exact absurd (mem_keysOf_of_mem h) hx_not
      · intro h
        rw [Option.some_inj] at h
        exact Or.inl (by rw [h])
    · simp only [getKey, List.mem_cons]
      rw [if_neg (by simp [hx])]
      constructor
      · rintro (h | h)
        · exact absurd ((Prod.mk.injEq _ _ _ _).mp h).1.symm hx
        · exact (ih hnd').mp h
      · intro h
        exact Or.inr ((ih hnd').mpr h)

/-- Claim C6: the duplicate-username report contains exactly the usernames
carrying more than one tagged EmployeeID, each with the full in-order list
of its colliding ids, and nothing for singleton usernames; the report is a
pure function of the (username, id) pairs and modifies no record. The
spec's concrete example is the second conjunct. -/
theorem claim_C6_duplicate_report :
    (∀ (pairs : List (String × Int)) (u : String) (ids : List Int),
        (u, ids) ∈ dupReport pairs ↔ (ids = idsFor u pairs ∧ 1 < ids.length))
    ∧ dupReport [("jdoe", 1), ("jdoe", 2), ("asmith", 3)] = [("jdoe", [1, 2])] := by
  refine ⟨?_, by decide⟩
  intro pairs u ids
  unfold dupReport
  rw [List.mem_filter]
  have hnd : (keysOf (buildTracker pairs)).Nodup := by
    apply build_nodup
    simp [keysOf]
  rw [mem_tracker_iff hnd]
  unfold buildTracker
  rw [build_lookup]
  show (combineIds (getKey u ([] : List (String × List Int))) (idsFor u pairs) = some ids ∧ _) ↔ _
  constructor
  · rintro ⟨h1, h2⟩
    simp only [decide_eq_true_eq] at h2
    by_cases hm : idsFor u pairs = []
    · rw [hm] at h1
      simp [combineIds, getKey] at h1
    · simp [combineIds, getKey, hm] at h1
      exact ⟨h1.symm, h2⟩
  · rintro ⟨h1, h2⟩
    subst h1
    have hm : idsFor u pairs ≠ [] := by
      intro he
      rw [he] at h2
      simp at h2
    simp [combineIds, getKey, hm, h2]

/-- Claim C7 (amended): for every database state, the `/export` CSV header
is the code's fixed 18-column list `canonical_cols` — the 16 fields of
spec section 3 with `WorkEmail` inserted after `Username` and
`YearsOfService` appended — exactly and in that order. The original
16-field header is refuted by `claim_C7_counterexample`. -/
theorem claim_C7_export_header (dbCols : List String) :
    exportHeader dbCols = some canonical_cols :=
  exportHeader_eq dbCols

/-- Refutes claim C7 as stated: even when the stored table has exactly the
16 columns of spec section 3, the export header is the 18-column
`canonical_cols`, which differs from the spec's list. -/
theorem claim_C7_counterexample :
    exportHeader specSectionThreeFields = some canonical_cols ∧
    canonical_cols ≠ specSectionThreeFields :=
  ⟨by decide, by decide⟩
